import Mathlib

/-
Verification of the markdown-to-HTML core of the static-site-generator
repository.  Python strings are modelled as `List Char`; Python functions
that can raise become `Except String`-valued functions.  Recursions that
are not structural in the Python source are given explicit fuel so that
every definition evaluates inside the kernel; fuel amounts are chosen so
that the fuel can never run out (lemmas below make this precise).
-/

namespace SSG

/-- Python strings are modelled as lists of characters. -/
abbrev Str := List Char

/-- ASCII part of Python's whitespace notion used by `str.strip()` and by
the regex class backslash-s (space, tab, newline, carriage return,
vertical tab, form feed).  Non-ASCII Unicode whitespace is not modelled;
no claim exercises it. -/
def pyIsSpace (c : Char) : Bool :=
  c == ' ' || c == '\t' || c == '\n' || c == '\r' || c == '\x0b' || c == '\x0c'

/-- Python `str.strip()` (no arguments): drop whitespace from both ends. -/
def pyStrip (s : Str) : Str :=
  ((s.dropWhile pyIsSpace).reverse.dropWhile pyIsSpace).reverse

/-- Python `sep.join(pieces)`. -/
def joinWith (sep : Str) : List Str → Str
  | [] => []
  | [x] => x
  | x :: y :: rest => x ++ sep ++ joinWith sep (y :: rest)

/-- Worker for `pySplit`: scans `s` left to right, cutting at each
leftmost non-overlapping occurrence of the separator.  `fuel` only
bounds the recursion; `fuel = s.length` always suffices. -/
def splitOnAux (sep : Str) : Nat → Str → Str → List Str
  | _, [], acc => [acc.reverse]
  | 0, s, acc => [acc.reverse ++ s]
  | fuel + 1, c :: rest, acc =>
    if sep.isPrefixOf (c :: rest) then
      acc.reverse :: splitOnAux sep fuel ((c :: rest).drop sep.length) []
    else
      splitOnAux sep fuel rest (c :: acc)

/-- Python `s.split(sep)` for a non-empty separator `sep` (every call in
the source passes a non-empty literal; Python raises on an empty one,
which we do not model). -/
def pySplit (sep s : Str) : List Str :=
  splitOnAux sep s.length s []

/-- Worker for `pyCount` with explicit fuel; `fuel = s.length` suffices. -/
def pyCountF (sep : Str) : Nat → Str → Nat
  | 0, _ => 0
  | fuel + 1, s =>
    if sep.isPrefixOf s then
      match s with
      | [] => 0
      | _ :: _ => 1 + pyCountF sep fuel (s.drop sep.length)
    else
      match s with
      | [] => 0
      | _ :: rest => pyCountF sep fuel rest

/-- Python `s.count(sep)` for non-empty `sep`: the number of
non-overlapping occurrences found scanning left to right. -/
def pyCount (sep s : Str) : Nat :=
  pyCountF sep s.length s

/-- Decimal digits of a natural number, matching Python `str(n)` for the
naturals that appear as list indices. -/
def natCharsAux : Nat → Nat → Str
  | 0, _ => []
  | fuel + 1, n =>
    if n < 10 then [Nat.digitChar n]
    else natCharsAux fuel (n / 10) ++ [Nat.digitChar (n % 10)]

/-- Python `str(n)` on a natural number. -/
def natChars (n : Nat) : Str := natCharsAux (n + 1) n

/-- The `TextType` enum of `textnode.py`. -/
inductive TextType where
  | TEXT | BOLD | ITALIC | CODE | LINK | IMAGE
deriving DecidableEq, Repr

/-- The `TextNode` class of `textnode.py`: a text, a type and an optional
URL (equality in the source is structural, as here). -/
structure TextNode where
  text : Str
  text_type : TextType
  url : Option Str := none
deriving DecidableEq, Repr

/-- The `HTMLNode` hierarchy of `htmlnode.py` / `leafnode.py` /
`parentnode.py`, collapsed into one closed type.  A `leaf` carries the
`LeafNode` fields (value, tag, props); a `parent` carries the
`ParentNode` fields (tag, children, props).  Fields that Python leaves
as `None` are `none`; a dict of attributes is an insertion-ordered
association list. -/
inductive HTMLNode where
  | leaf (value : Option Str) (tag : Option Str) (props : Option (List (Str × Str)))
  | parent (tag : Option Str) (children : Option (List HTMLNode)) (props : Option (List (Str × Str)))

/-- The `props_to_html` method of `HTMLNode`. -/
def props_to_html : Option (List (Str × Str)) → Str
  | none => []
  | some ps =>
    ' ' :: joinWith [' '] (ps.map (fun p => p.1 ++ '=' :: '"' :: (p.2 ++ ['"'])))

/-- Sequencing of a fallible operation over a list, mirroring the Python
loops that append per element and abort on the first raised exception. -/
def mapME (g : α → Except String β) : List α → Except String (List β)
  | [] => .ok []
  | a :: l => do
    let b ← g a
    let bs ← mapME g l
    .ok (b :: bs)

/-- The `to_html` methods of `LeafNode` and `ParentNode`, with fuel for
the recursion into children (`fuel = sizeOf node` always suffices).
Check order follows the source: a leaf first requires a value, then
renders untagged or tagged; a parent first requires a tag, then a
present child list, then renders the concatenation of its children. -/
def to_htmlF : Nat → HTMLNode → Except String Str
  | 0, _ => .error ("out of fuel")
  | fuel + 1, node =>
    match node with
    | .leaf value tag props =>
      match value with
      | none => .error ("All leaf nodes must have a value.")
      | some v =>
        match tag with
        | none => .ok v
        | some t =>
          .ok (['<'] ++ t ++ props_to_html props ++ ['>'] ++ v ++ ['<', '/'] ++ t ++ ['>'])
    | .parent tag children props =>
      match tag with
      | none => .error ("Parent nodes must have a tag.")
      | some t =>
        match children with
        | none => .error ("Parent node missing child nodes.")
        | some cs => do
          let parts ← mapME (to_htmlF fuel) cs
          .ok (['<'] ++ t ++ props_to_html props ++ ['>'] ++ parts.flatten ++ ['<', '/'] ++ t ++ ['>'])

/-- Node measure used as the default fuel for `to_htmlF`: one more than
the number of nodes of the tree, so it always dominates the recursion
depth of the Python `to_html`. -/
def nsize : HTMLNode → Nat
  | .leaf _ _ _ => 1
  | .parent _ none _ => 1
  | .parent _ (some cs) _ => 1 + ((cs.attach.map (fun c => nsize c.1)).sum)
decreasing_by
  have := List.sizeOf_lt_of_mem c.2
  simp
  omega

/-- `node.to_html()`: the Python method has no fuel; `nsize n` steps are
always enough (made precise by `to_htmlF_ok_nsize` below). -/
def to_html (n : HTMLNode) : Except String Str := to_htmlF (nsize n) n

/-! ### parsing.py: inline span parsing -/

/-- The chunk-to-node loop of `split_nodes_delimiter`: Python enumerates
the chunks of `text.split(delimiter)` and makes even-indexed chunks
plain `TEXT` nodes and odd-indexed chunks nodes of the given type. -/
def mkChunks (delimiter : Str) (text_type : TextType) (text : Str) : List TextNode :=
  ((pySplit delimiter text).enum).map
    (fun p => if p.1 % 2 == 0 then ⟨p.2, TextType.TEXT, none⟩ else ⟨p.2, text_type, none⟩)

/-- One iteration of the `split_nodes_delimiter` loop body for a single
node: non-`TEXT` nodes pass through; a `TEXT` node whose text holds an
odd number of delimiter occurrences raises; otherwise the text is split
and retyped alternately. -/
def splitOneNode (delimiter : Str) (text_type : TextType) (node : TextNode) :
    Except String (List TextNode) :=
  if node.text_type ≠ TextType.TEXT then .ok [node]
  else if pyCount delimiter node.text % 2 ≠ 0 then
    .error ("Invalid Markdown: Unmatched " ++ String.mk delimiter ++ " delimiter.")
  else .ok (mkChunks delimiter text_type node.text)

/-- `split_nodes_delimiter` of parsing.py: processes the nodes in order,
extending the output list per node; the first raised exception aborts
the whole call with no partial result. -/
def split_nodes_delimiter (old_nodes : List TextNode) (delimiter : Str)
    (text_type : TextType) : Except String (List TextNode) :=
  match old_nodes with
  | [] => .ok []
  | node :: rest => do
    let first ← splitOneNode delimiter text_type node
    let more ← split_nodes_delimiter rest delimiter text_type
    .ok (first ++ more)

/-- The protocol alternative `https?:\/\/` of the URL regexes: with
greedy `s?`, Python first tries `https://`, then `http://`. Returns the
matched protocol characters and the rest of the input. -/
def stripProto (l : Str) : Option (Str × Str) :=
  if (("https://").data).isPrefixOf l then some ((("https://").data), l.drop 8)
  else if (("http://").data).isPrefixOf l then some ((("http://").data), l.drop 7)
  else none

/-- The lazy tail `.*?\)` of the URL regexes: consume the minimal run of
non-newline characters up to the next `)`. Returns the consumed
characters and the input after the `)`. -/
def lazyUntilParen : Str → Option (Str × Str)
  | [] => none
  | c :: rest =>
    if c = ')' then some ([], rest)
    else if c = '\n' then none
    else (lazyUntilParen rest).map (fun p => (c :: p.1, p.2))

/-- The suffix `\]\((https?:\/\/.*?)\)` of the image/link regexes,
matched at the current position: requires a literal `](`, then the
protocol, then the lazy URL run.  Returns (whole group-2 capture,
remainder after the closing parenthesis). -/
def matchRest : Str → Option (Str × Str)
  | ']' :: '(' :: rest =>
    match stripProto rest with
    | some (proto, rest') =>
      match lazyUntilParen rest' with
      | some (url, rem) => some (proto ++ url, rem)
      | none => none
    | none => none
  | _ => none

/-- The lazy alt/anchor group `(.*?)` followed by `matchRest`, with the
regex backtracking order: try the empty capture first, then grow it one
non-newline character at a time. Returns (group-1, group-2, remainder). -/
def matchAlt : Str → Option (Str × Str × Str)
  | [] => none
  | c :: rest =>
    match matchRest (c :: rest) with
    | some (g2, rem) => some ([], g2, rem)
    | none =>
      if c = '\n' then none
      else (matchAlt rest).map (fun p => (c :: p.1, p.2.1, p.2.2))

/-- `re.findall` scan for the image pattern of
`extract_markdown_images`: at each position try to match
`!\[(.*?)\]\((https?:\/\/.*?)\)`; on success emit the two captures and
continue after the match, otherwise advance one character.  `fuel =
input length` always suffices since every step consumes at least one
character. -/
def findImagesF : Nat → Str → List (Str × Str)
  | 0, _ => []
  | _ + 1, [] => []
  | fuel + 1, '!' :: '[' :: rest =>
    (match matchAlt rest with
     | some (alt, g2, rem) => (alt, g2) :: findImagesF fuel rem
     | none => findImagesF fuel ('[' :: rest))
  | fuel + 1, _ :: rest => findImagesF fuel rest

/-- `extract_markdown_images` of parsing.py. -/
def extract_markdown_images (text : Str) : List (Str × Str) :=
  findImagesF text.length text

/-- `re.findall` scan for the link pattern of `extract_markdown_links`,
`(?<!!)\[(.*?)\]\((https?:\/\/.*?)\)`: like the image scan but anchored
on `[` and rejected when the preceding character (tracked in the second
argument; `none` at the start of the text) is `!`.  After a successful
match the preceding character is the `)` the match ended with. -/
def findLinksF : Nat → Option Char → Str → List (Str × Str)
  | 0, _, _ => []
  | _ + 1, _, [] => []
  | fuel + 1, prev, '[' :: rest =>
    if prev = some '!' then findLinksF fuel (some '[') rest
    else
      (match matchAlt rest with
       | some (anchor, g2, rem) => (anchor, g2) :: findLinksF fuel (some ')') rem
       | none => findLinksF fuel (some '[') rest)
  | fuel + 1, _, c :: rest => findLinksF fuel (some c) rest

/-- `extract_markdown_links` of parsing.py. -/
def extract_markdown_links (text : Str) : List (Str × Str) :=
  findLinksF text.length none text

/-- Python `text.split(sep, 1)` when unpacked into `before, after`:
`some (before, after)` on the first occurrence of `sep`, `none` when
`sep` does not occur (in which case the Python unpacking raises). -/
def splitFirst (sep : Str) : Str → Option (Str × Str)
  | [] => none
  | c :: rest =>
    if sep.isPrefixOf (c :: rest) then some ([], (c :: rest).drop sep.length)
    else (splitFirst sep rest).map (fun p => (c :: p.1, p.2))

/-- The match loop of `split_nodes_image`: walk the extracted
(alt, url) pairs left to right, splitting the running text on the
reconstructed literal; text before a match is kept only when non-empty,
and so is the final remainder. -/
def imageLoop : List (Str × Str) → Str → Except String (List TextNode)
  | [], text => .ok (if text ≠ [] then [⟨text, TextType.TEXT, none⟩] else [])
  | (alt, url) :: rest, text =>
    match splitFirst (('!' :: '[' :: alt) ++ (']' :: '(' :: url) ++ [')']) text with
    | none => .error ("ValueError: not enough values to unpack")
    | some (before, after) => do
      let tail ← imageLoop rest after
      .ok ((if before ≠ [] then [⟨before, TextType.TEXT, none⟩] else [])
            ++ ⟨alt, TextType.IMAGE, some url⟩ :: tail)

/-- Per-node body of `split_nodes_image`. -/
def splitImagesOne (node : TextNode) : Except String (List TextNode) :=
  if node.text_type ≠ TextType.TEXT then .ok [node]
  else
    match extract_markdown_images node.text with
    | [] => .ok [⟨node.text, TextType.TEXT, none⟩]
    | imgs => imageLoop imgs node.text

/-- `split_nodes_image` of parsing.py. -/
def split_nodes_image : List TextNode → Except String (List TextNode)
  | [] => .ok []
  | node :: rest => do
    let first ← splitImagesOne node
    let more ← split_nodes_image rest
    .ok (first ++ more)

/-- The match loop of `split_nodes_link` (same shape as `imageLoop`,
with the link literal and `LINK` nodes). -/
def linkLoop : List (Str × Str) → Str → Except String (List TextNode)
  | [], text => .ok (if text ≠ [] then [⟨text, TextType.TEXT, none⟩] else [])
  | (anchor, url) :: rest, text =>
    match splitFirst (('[' :: anchor) ++ (']' :: '(' :: url) ++ [')']) text with
    | none => .error ("ValueError: not enough values to unpack")
    | some (before, after) => do
      let tail ← linkLoop rest after
      .ok ((if before ≠ [] then [⟨before, TextType.TEXT, none⟩] else [])
            ++ ⟨anchor, TextType.LINK, some url⟩ :: tail)

/-- Per-node body of `split_nodes_link`. -/
def splitLinksOne (node : TextNode) : Except String (List TextNode) :=
  if node.text_type ≠ TextType.TEXT then .ok [node]
  else
    match extract_markdown_links node.text with
    | [] => .ok [⟨node.text, TextType.TEXT, none⟩]
    | links => linkLoop links node.text

/-- `split_nodes_link` of parsing.py. -/
def split_nodes_link : List TextNode → Except String (List TextNode)
  | [] => .ok []
  | node :: rest => do
    let first ← splitLinksOne node
    let more ← split_nodes_link rest
    .ok (first ++ more)

/-- `text_to_textnodes` of parsing.py, with the `zip` over the four
(delimiter, type) pairs unrolled in the source order. -/
def text_to_textnodes (text : Str) : Except String (List TextNode) := do
  let nodes := [(⟨text, TextType.TEXT, none⟩ : TextNode)]
  let nodes ← split_nodes_delimiter nodes (("**").data) TextType.BOLD
  let nodes ← split_nodes_delimiter nodes (("_").data) TextType.ITALIC
  let nodes ← split_nodes_delimiter nodes (("*").data) TextType.ITALIC
  let nodes ← split_nodes_delimiter nodes (("`").data) TextType.CODE
  let nodes ← split_nodes_image nodes
  let nodes ← split_nodes_link nodes
  .ok nodes

/-- `text_node_to_html_node` of textnode.py.  The Python `match` over the
six `TextType` members is exhaustive, so its final raising branch is
unreachable and the Lean function is total. -/
def text_node_to_html_node (text_node : TextNode) : HTMLNode :=
  match text_node.text_type with
  | TextType.TEXT => .leaf (some text_node.text) none none
  | TextType.BOLD => .leaf (some text_node.text) (some (("b").data)) none
  | TextType.ITALIC => .leaf (some text_node.text) (some (("i").data)) none
  | TextType.CODE => .leaf (some text_node.text) (some (("code").data)) none
  | TextType.LINK =>
    .leaf (some text_node.text) (some (("a").data))
      (some [((("href").data), text_node.url.getD [])])
  | TextType.IMAGE =>
    .leaf (some []) (some (("img").data))
      (some [((("src").data), text_node.url.getD []), ((("alt").data), text_node.text)])

/-! ### blocks.py: block splitting, classification, conversion -/

/-- The `BlockType` enum of blocks.py. -/
inductive BlockType where
  | PARAGRAPH | HEADING | CODE | QUOTE | UNORDERED_LIST | ORDERED_LIST
deriving DecidableEq, Repr

/-- `markdown_to_blocks` of blocks.py: split on blank lines, strip each
piece, drop empty pieces. -/
def markdown_to_blocks (markdown : Str) : List Str :=
  ((pySplit (("\n\n").data) markdown).map pyStrip).filter (fun x => x ≠ [])

/-- The heading regex of blocks.py,
`re.match(r"(?P<level>#{1,6})\s+(?P<text>.*)$", block, DOTALL | MULTILINE)`.
With `re.match` anchoring at the start, the greedy 1-to-6 `#` repetition
can only succeed by taking the entire leading run of `#` (a shorter
attempt is followed by another `#`, which is not whitespace), so the
regex matches exactly when the leading `#` run has length 1..6 and is
followed by at least one whitespace character; the greedy `\s+` then
swallows the whole whitespace run and, with DOTALL, the `text` group is
everything after it.  Returns (level, text group). -/
def headingMatch (block : Str) : Option (Nat × Str) :=
  let k := (block.takeWhile (fun c => c == '#')).length
  if 1 ≤ k ∧ k ≤ 6 then
    let rest := block.drop k
    if (rest.takeWhile pyIsSpace) = [] then none
    else some (k, rest.dropWhile pyIsSpace)
  else none

/-- `block_to_block_type` of blocks.py: heading, code, quote, unordered
list, ordered list in that order, defaulting to paragraph.  The ordered
check mirrors the Python `for ... else`: every line, enumerated from 1,
must start with the string of its index followed by a dot and space. -/
def block_to_block_type (block : Str) : BlockType :=
  if (headingMatch block).isSome then BlockType.HEADING
  else if (("```").data).isPrefixOf block ∧ (("```").data).isSuffixOf block then
    BlockType.CODE
  else
    let lines := pySplit ['\n'] block
    if lines.all (fun line => ['>'].isPrefixOf line) then BlockType.QUOTE
    else if lines.all (fun line => ['-', ' '].isPrefixOf line) then BlockType.UNORDERED_LIST
    else if (lines.enumFrom 1).all (fun p => (natChars p.1 ++ ['.', ' ']).isPrefixOf p.2) then
      BlockType.ORDERED_LIST
    else BlockType.PARAGRAPH

/-- `re.findall(r"^>(.*)$", block, MULTILINE)` of `block_to_quote`: per
line starting with `>`, the rest of that line (the quote marker cannot
consume the newline, so the scan is exactly line-by-line). -/
def quoteScan (lines : List Str) : List Str :=
  lines.filterMap (fun l => match l with
    | '>' :: rest => some rest
    | _ => none)

/-- `re.findall(r"^-\s(.*)$", block, MULTILINE)`: at each line start, a
dash followed by one whitespace character and a capture running to the
end of the line.  Because the single `\s` may itself match the newline
(MULTILINE does not change `\s`), a line that is exactly `"-"` followed
by another line captures that entire following line and the scan resumes
after it. -/
def ulScan : List Str → List Str
  | [] => []
  | line :: rest =>
    match line with
    | '-' :: c :: tail =>
      if pyIsSpace c then tail :: ulScan rest else ulScan rest
    | ['-'] =>
      (match rest with
       | next :: rest' => next :: ulScan rest'
       | [] => [])
    | _ => ulScan rest

/-- `re.findall(r"^\d+\.\s(.*)$", block, MULTILINE)`: at each line
start, a maximal run of digits (greedy `\d+` can only succeed on the
whole run), a dot, one whitespace character (possibly the newline, as in
`ulScan`) and a capture to the end of the line. -/
def olScan : List Str → List Str
  | [] => []
  | line :: rest =>
    let ds := line.takeWhile Char.isDigit
    if ds = [] then olScan rest
    else
      match line.drop ds.length with
      | '.' :: c :: tail =>
        if pyIsSpace c then tail :: olScan rest else olScan rest
      | ['.'] =>
        (match rest with
         | next :: rest' => next :: olScan rest'
         | [] => [])
      | _ => olScan rest

/-- `block_to_heading` of blocks.py (identical in main.py): on a regex
miss, an `h1` over the inline parse of the empty string; otherwise an
`h{level}` over the inline parse of the text group. -/
def block_to_heading (block : Str) : Except String HTMLNode := do
  match headingMatch block with
  | none =>
    let ns ← text_to_textnodes []
    .ok (.parent (some (("h1").data)) (some (ns.map text_node_to_html_node)) none)
  | some (level, text) =>
    let ns ← text_to_textnodes text
    .ok (.parent (some ('h' :: natChars level)) (some (ns.map text_node_to_html_node)) none)

/-- `block_to_code` of blocks.py: slice off the three-character fences
(`block[3:-3]`), strip every leading newline (`lstrip("\n")`), wrap the
raw text as an untagged leaf (via `text_node_to_html_node` on a `TEXT`
node) inside a `code` parent inside a `pre` parent.  The debugging
`print` of the source has no modelled effect. -/
def block_to_code (block : Str) : HTMLNode :=
  let text := ((block.take (block.length - 3)).drop 3).dropWhile (fun c => c == '\n')
  let code_node : HTMLNode :=
    .parent (some (("code").data))
      (some [text_node_to_html_node ⟨text, TextType.TEXT, none⟩]) none
  .parent (some (("pre").data)) (some [code_node]) none

/-- `block_to_quote` of blocks.py (identical in main.py). -/
def block_to_quote (block : Str) : Except String HTMLNode := do
  let captured := quoteScan (pySplit ['\n'] block)
  let text := joinWith [' '] (captured.map pyStrip)
  let ns ← text_to_textnodes text
  .ok (.parent (some (("blockquote").data)) (some (ns.map text_node_to_html_node)) none)

/-- `block_to_ul` of blocks.py (identical in main.py). -/
def block_to_ul (block : Str) : Except String HTMLNode := do
  let items := ulScan (pySplit ['\n'] block)
  let list_nodes ← mapME (fun item => do
    let ns ← text_to_textnodes item
    .ok (HTMLNode.parent (some (("li").data)) (some (ns.map text_node_to_html_node)) none)) items
  .ok (.parent (some (("ul").data)) (some list_nodes) none)

/-- `block_to_ol` of blocks.py (identical in main.py). -/
def block_to_ol (block : Str) : Except String HTMLNode := do
  let items := olScan (pySplit ['\n'] block)
  let list_nodes ← mapME (fun item => do
    let ns ← text_to_textnodes item
    .ok (HTMLNode.parent (some (("li").data)) (some (ns.map text_node_to_html_node)) none)) items
  .ok (.parent (some (("ol").data)) (some list_nodes) none)

/-- `block_to_paragraph` of blocks.py: lines rejoined with single
spaces, then inline-parsed under a `p` parent. -/
def block_to_paragraph (block : Str) : Except String HTMLNode := do
  let text := joinWith [' '] (pySplit ['\n'] block)
  let ns ← text_to_textnodes text
  .ok (.parent (some (("p").data)) (some (ns.map text_node_to_html_node)) none)

/-- The per-block `match block_type` dispatch inside
`markdown_to_html_node` of blocks.py.  `BlockType` is a closed
six-member enum, so the raising default case of the source is
unreachable. -/
def blockToNode (block : Str) : Except String HTMLNode :=
  match block_to_block_type block with
  | BlockType.HEADING => block_to_heading block
  | BlockType.CODE => .ok (block_to_code block)
  | BlockType.QUOTE => block_to_quote block
  | BlockType.UNORDERED_LIST => block_to_ul block
  | BlockType.ORDERED_LIST => block_to_ol block
  | BlockType.PARAGRAPH => block_to_paragraph block

/-- `markdown_to_html_node` of blocks.py. -/
def markdown_to_html_node (markdown : Str) : Except String HTMLNode := do
  let children ← mapME blockToNode (markdown_to_blocks markdown)
  .ok (.parent (some (("div").data)) (some children) none)

/-! ### main.py: the duplicate pipeline

main.py repeats `text_node_to_html_node` and all block converters
verbatim except `block_to_code` (which builds the `code` tag as a
tagged leaf instead of a parent over an untagged leaf) and
`block_to_paragraph` (which does not rejoin lines with spaces); its
`markdown_to_html_node` differs only in lacking the unreachable default
case.  Only the differing definitions are re-modelled here; the shared
ones are the definitions above. -/

namespace Main

/-- `block_to_code` of main.py. -/
def block_to_code (block : Str) : HTMLNode :=
  let text := ((block.take (block.length - 3)).drop 3).dropWhile (fun c => c == '\n')
  let code_node : HTMLNode := .leaf (some text) (some (("code").data)) none
  .parent (some (("pre").data)) (some [code_node]) none

/-- `block_to_paragraph` of main.py: the block text is inline-parsed
as-is, newlines included. -/
def block_to_paragraph (block : Str) : Except String HTMLNode := do
  let ns ← text_to_textnodes block
  .ok (.parent (some (("p").data)) (some (ns.map text_node_to_html_node)) none)

/-- The per-block dispatch inside `markdown_to_html_node` of main.py. -/
def blockToNode (block : Str) : Except String HTMLNode :=
  match block_to_block_type block with
  | BlockType.HEADING => block_to_heading block
  | BlockType.CODE => .ok (Main.block_to_code block)
  | BlockType.QUOTE => block_to_quote block
  | BlockType.UNORDERED_LIST => block_to_ul block
  | BlockType.ORDERED_LIST => block_to_ol block
  | BlockType.PARAGRAPH => Main.block_to_paragraph block

/-- `markdown_to_html_node` of main.py. -/
def markdown_to_html_node (markdown : Str) : Except String HTMLNode := do
  let children ← mapME Main.blockToNode (markdown_to_blocks markdown)
  .ok (.parent (some (("div").data)) (some children) none)

end Main

/-- Modelled from the spec: `extract_title` is imported by the test
suite from `parsing`, but its definition is not among the provided
sources.  Per section 6 of the spec, it scans for the first line
beginning with a level-1 heading marker (the two characters hash,
space), returns the trimmed remainder of that line, and fails with the
"no title" condition otherwise (error text as pinned by the tests). -/
def extract_title (markdown : Str) : Except String Str :=
  match (pySplit ['\n'] markdown).find? (fun l => (['#', ' ']).isPrefixOf l) with
  | some l => .ok (pyStrip (l.drop 2))
  | none => .error ("markdown does not contain h1 title")

/-! ### Specification-side helper notions used to state the claims -/

/-- Reconstruction of a split text from its segments: plain segments
contribute their content, styled segments contribute their content with
the delimiter reinserted on both sides. -/
def reconstructDelim (delimiter : Str) (segs : List TextNode) : Str :=
  (segs.map (fun n =>
    if n.text_type = TextType.TEXT then n.text else delimiter ++ n.text ++ delimiter)).flatten

/-- Lifting of a relation on results to `Except` values: both fail with
the same error, or both succeed with related values. -/
def ExceptRel (R : α → β → Prop) : Except String α → Except String β → Prop
  | .error e₁, .error e₂ => e₁ = e₂
  | .ok a, .ok b => R a b
  | _, _ => False

/-- The structural rendering invariant: every leaf has a present value
and every parent has a present tag and a present (possibly empty) child
list, recursively. -/
inductive WF : HTMLNode → Prop where
  | leaf : ∀ (v : Str) (t : Option Str) (p), WF (.leaf (some v) t p)
  | parent : ∀ (t : Str) (cs : List HTMLNode) (p),
      (∀ c, c ∈ cs → WF c) → WF (.parent (some t) (some cs) p)

/-! ### Basic facts about the splitting primitives -/

@[simp]
theorem except_bind_ok (a : α) (f : α → Except String β) :
    (Except.ok a : Except String α) >>= f = f a := rfl

@[simp]
theorem except_bind_error (e : String) (f : α → Except String β) :
    (Except.error e : Except String α) >>= f = .error e := rfl

theorem prefixOf_append_drop {l₁ l₂ : List Char} (h : l₁.isPrefixOf l₂ = true) :
    l₁ ++ List.drop l₁.length l₂ = l₂ := by
  apply List.prefix_iff_eq_append.mp
  exact List.isPrefixOf_iff_prefix.mp h

theorem splitOnAux_ne_nil (sep : Str) :
    ∀ (fuel : Nat) (s acc : Str), splitOnAux sep fuel s acc ≠ []
  | fuel, [], acc => by cases fuel <;> simp [splitOnAux]
  | 0, _ :: _, _ => by simp [splitOnAux]
  | fuel + 1, c :: s, acc => by
    cases hpre : sep.isPrefixOf (c :: s) with
    | false =>
      simp only [splitOnAux, hpre]
      exact splitOnAux_ne_nil sep fuel s (c :: acc)
    | true => simp [splitOnAux, hpre]

theorem pySplit_ne_nil (sep s : Str) : pySplit sep s ≠ [] :=
  splitOnAux_ne_nil sep s.length s []

theorem joinWith_splitOnAux (sep : Str) (hsep : sep ≠ []) :
    ∀ (fuel : Nat) (s acc : Str), s.length ≤ fuel →
      joinWith sep (splitOnAux sep fuel s acc) = acc.reverse ++ s
  | fuel, [], acc, _ => by cases fuel <;> simp [splitOnAux, joinWith]
  | 0, c :: s, _, h => by simp at h
  | fuel + 1, c :: s, acc, h => by
    have hsl : 1 ≤ sep.length := by
      cases sep with
      | nil => exact absurd rfl hsep
      | cons a t => simp
    cases hpre : sep.isPrefixOf (c :: s) with
    | false =>
      simp only [splitOnAux, hpre, Bool.false_eq_true, if_false]
      rw [joinWith_splitOnAux sep hsep fuel s (c :: acc) (by simp at h; omega)]
      simp
    | true =>
      simp only [splitOnAux, hpre, if_true]
      have hp : sep ++ List.drop sep.length (c :: s) = c :: s :=
        prefixOf_append_drop hpre
      have hlen : (List.drop sep.length (c :: s)).length ≤ fuel := by
        simp only [List.length_drop, List.length_cons]
        simp at h
        omega
      obtain ⟨y, t, hyt⟩ :
          ∃ y t, splitOnAux sep fuel (List.drop sep.length (c :: s)) [] = y :: t := by
        rcases hs : splitOnAux sep fuel (List.drop sep.length (c :: s)) [] with _ | ⟨y, t⟩
        · exact absurd hs (splitOnAux_ne_nil sep fuel _ _)
        · exact ⟨y, t, rfl⟩
      have ih := joinWith_splitOnAux sep hsep fuel (List.drop sep.length (c :: s)) [] hlen
      simp only [List.reverse_nil, List.nil_append] at ih
      rw [hyt]
      simp only [joinWith]
      rw [← hyt, ih, List.append_assoc, hp]

theorem joinWith_pySplit (sep : Str) (hsep : sep ≠ []) (s : Str) :
    joinWith sep (pySplit sep s) = s := by
  have := joinWith_splitOnAux sep hsep s.length s [] (le_refl _)
  simpa using this

theorem pyCountF_nil (sep : Str) (hsep : sep ≠ []) :
    ∀ fuel, pyCountF sep fuel [] = 0 := by
  intro fuel
  obtain ⟨a, t, rfl⟩ : ∃ a t, sep = a :: t := by
    cases sep with
    | nil => exact absurd rfl hsep
    | cons a t => exact ⟨a, t, rfl⟩
  cases fuel <;> simp [pyCountF, List.isPrefixOf]

theorem length_splitOnAux (sep : Str) (hsep : sep ≠ []) :
    ∀ (fuel : Nat) (s acc : Str), s.length ≤ fuel →
      (splitOnAux sep fuel s acc).length = pyCountF sep fuel s + 1
  | fuel, [], acc, _ => by
    cases fuel <;> simp [splitOnAux, pyCountF_nil sep hsep]
  | 0, c :: s, _, h => by simp at h
  | fuel + 1, c :: s, acc, h => by
    have hsl : 1 ≤ sep.length := by
      cases sep with
      | nil => exact absurd rfl hsep
      | cons a t => simp
    cases hpre : sep.isPrefixOf (c :: s) with
    | false =>
      simp only [splitOnAux, pyCountF, hpre]
      simp only [Bool.false_eq_true, if_false]
      exact length_splitOnAux sep hsep fuel s (c :: acc) (by simp at h; omega)
    | true =>
      have hlen : (List.drop sep.length (c :: s)).length ≤ fuel := by
        simp only [List.length_drop, List.length_cons]
        simp at h
        omega
      simp only [splitOnAux, pyCountF, hpre, if_true, List.length_cons]
      rw [length_splitOnAux sep hsep fuel (List.drop sep.length (c :: s)) [] hlen]
      omega

theorem length_pySplit (sep : Str) (hsep : sep ≠ []) (s : Str) :
    (pySplit sep s).length = pyCount sep s + 1 :=
  length_splitOnAux sep hsep s.length s [] (le_refl _)

theorem splitOnAux_not_mem (a : Char) :
    ∀ (fuel : Nat) (s acc : Str), s.length ≤ fuel → a ∉ s →
      splitOnAux [a] fuel s acc = [acc.reverse ++ s]
  | fuel, [], acc, _, _ => by cases fuel <;> simp [splitOnAux]
  | 0, c :: s, _, h, _ => by simp at h
  | fuel + 1, c :: s, acc, h, hmem => by
    rw [List.mem_cons] at hmem
    push_neg at hmem
    obtain ⟨hne, hnotin⟩ := hmem
    have hpre : ([a].isPrefixOf (c :: s)) = false := by
      simp [List.isPrefixOf]
      exact hne
    simp only [splitOnAux, hpre, Bool.false_eq_true, if_false]
    rw [splitOnAux_not_mem a fuel s (c :: acc) (by simp at h; omega) hnotin]
    simp

theorem pySplit_not_mem (a : Char) (s : Str) (hmem : a ∉ s) :
    pySplit [a] s = [s] := by
  have := splitOnAux_not_mem a s.length s [] (le_refl _) hmem
  simpa using this

/-! ### Facts about `mapME` -/

theorem mapME_congr {g₁ g₂ : α → Except String β} :
    ∀ {l : List α}, (∀ a ∈ l, g₁ a = g₂ a) → mapME g₁ l = mapME g₂ l
  | [], _ => rfl
  | a :: l, h => by
    simp only [mapME]
    rw [h a (List.mem_cons_self a l),
      mapME_congr (fun x hx => h x (List.mem_cons_of_mem a hx))]

theorem mapME_ok_forall {g : α → Except String β} :
    ∀ {l : List α}, (∀ a ∈ l, ∃ b, g a = .ok b) → ∃ bs, mapME g l = .ok bs
  | [], _ => ⟨[], rfl⟩
  | a :: l, h => by
    obtain ⟨b, hb⟩ := h a (List.mem_cons_self a l)
    obtain ⟨bs, hbs⟩ := mapME_ok_forall (fun x hx => h x (List.mem_cons_of_mem a hx))
    exact ⟨b :: bs, by simp [mapME, hb, hbs]⟩

theorem mapME_mem_of_ok {g : α → Except String β} :
    ∀ {l : List α} {bs : List β}, mapME g l = .ok bs → ∀ b ∈ bs, ∃ a ∈ l, g a = .ok b
  | [], bs, h => by
    simp only [mapME, Except.ok.injEq] at h
    subst h
    simp
  | a :: l, bs, h => by
    simp only [mapME] at h
    cases hga : g a with
    | error e => rw [hga] at h; simp at h
    | ok b₀ =>
      rw [hga] at h
      simp only [except_bind_ok] at h
      cases hml : mapME g l with
      | error e => rw [hml] at h; simp at h
      | ok bs₀ =>
        rw [hml] at h
        simp only [except_bind_ok, Except.ok.injEq] at h
        subst h
        intro b hb
        rcases List.mem_cons.mp hb with rfl | hb'
        · exact ⟨a, List.mem_cons_self a l, hga⟩
        · obtain ⟨a', ha', hga'⟩ := mapME_mem_of_ok hml b hb'
          exact ⟨a', List.mem_cons_of_mem a ha', hga'⟩

theorem mapME_ok_transport {g₁ g₂ : α → Except String β} :
    ∀ {l : List α} {bs : List β},
      (∀ a ∈ l, ∀ b, g₁ a = .ok b → g₂ a = .ok b) →
      mapME g₁ l = .ok bs → mapME g₂ l = .ok bs
  | [], _, _, h => h
  | a :: l, bs, hg, h => by
    simp only [mapME] at h ⊢
    cases hga : g₁ a with
    | error e => rw [hga] at h; simp at h
    | ok b₀ =>
      rw [hga] at h
      simp only [except_bind_ok] at h
      rw [hg a (List.mem_cons_self a l) b₀ hga]
      simp only [except_bind_ok]
      cases hml : mapME g₁ l with
      | error e => rw [hml] at h; simp at h
      | ok bs₀ =>
        rw [hml] at h
        simp only [except_bind_ok] at h
        rw [mapME_ok_transport (fun x hx => hg x (List.mem_cons_of_mem a hx)) hml]
        simpa using h

theorem ExceptRel_of_eq {R : α → α → Prop} (hR : ∀ a, R a a)
    {x y : Except String α} (h : x = y) : ExceptRel R x y := by
  subst h
  cases x with
  | error e => simp [ExceptRel]
  | ok a => exact hR a

theorem mapME_rel {R : β → γ → Prop} {g₁ : α → Except String β} {g₂ : α → Except String γ} :
    ∀ {l : List α}, (∀ a ∈ l, ExceptRel R (g₁ a) (g₂ a)) →
      ExceptRel (List.Forall₂ R) (mapME g₁ l) (mapME g₂ l)
  | [], _ => by simp [mapME, ExceptRel]
  | a :: l, h => by
    have ha := h a (List.mem_cons_self a l)
    have ht := mapME_rel (fun x hx => h x (List.mem_cons_of_mem a hx))
    simp only [mapME]
    cases hg₁ : g₁ a with
    | error e₁ =>
      cases hg₂ : g₂ a with
      | error e₂ =>
        rw [hg₁, hg₂] at ha
        simp only [ExceptRel] at ha
        subst ha
        simp [ExceptRel]
      | ok b =>
        rw [hg₁, hg₂] at ha
        simp [ExceptRel] at ha
    | ok b₁ =>
      cases hg₂ : g₂ a with
      | error e =>
        rw [hg₁, hg₂] at ha
        simp [ExceptRel] at ha
      | ok b₂ =>
        rw [hg₁, hg₂] at ha
        simp only [ExceptRel] at ha
        simp only [except_bind_ok]
        cases hm₁ : mapME g₁ l with
        | error e₁ =>
          cases hm₂ : mapME g₂ l with
          | error e₂ =>
            rw [hm₁, hm₂] at ht
            simp only [ExceptRel] at ht
            subst ht
            simp [ExceptRel]
          | ok bs₂ =>
            rw [hm₁, hm₂] at ht
            simp [ExceptRel] at ht
        | ok bs₁ =>
          cases hm₂ : mapME g₂ l with
          | error e₂ =>
            rw [hm₁, hm₂] at ht
            simp [ExceptRel] at ht
          | ok bs₂ =>
            rw [hm₁, hm₂] at ht
            simp only [ExceptRel] at ht
            simp only [except_bind_ok, ExceptRel]
            exact List.Forall₂.cons ha ht

/-! ### Fuel facts for the renderer -/

theorem nsize_leaf (v t p) : nsize (.leaf v t p) = 1 := by
  simp [nsize]

theorem nsize_parent_none (t p) : nsize (.parent t none p) = 1 := by
  simp [nsize]

theorem nsize_parent_some (t cs p) :
    nsize (.parent t (some cs) p) = 1 + (cs.map nsize).sum := by
  simp only [nsize]
  rw [List.attach_map_val cs nsize]

theorem nsize_pos (n : HTMLNode) : 0 < nsize n := by
  cases n with
  | leaf v t p => simp [nsize_leaf]
  | parent t cs p =>
    cases cs with
    | none => simp [nsize_parent_none]
    | some cs => rw [nsize_parent_some]; omega

theorem nsize_lt_of_mem {c : HTMLNode} {cs : List HTMLNode} (hc : c ∈ cs)
    (t : Option Str) (p) : nsize c < nsize (.parent t (some cs) p) := by
  rw [nsize_parent_some]
  have : nsize c ≤ (cs.map nsize).sum :=
    List.single_le_sum (fun x _ => Nat.zero_le x) _ (List.mem_map_of_mem nsize hc)
  omega

theorem to_htmlF_leaf (f : Nat) (v t p) :
    to_htmlF (f + 1) (.leaf v t p) =
      (match v with
       | none => .error ("All leaf nodes must have a value.")
       | some v =>
         match t with
         | none => .ok v
         | some t =>
           .ok (['<'] ++ t ++ props_to_html p ++ ['>'] ++ v ++ ['<', '/'] ++ t ++ ['>'])) := rfl

theorem to_htmlF_parent_tag_none (f : Nat) (cs p) :
    to_htmlF (f + 1) (.parent none cs p) = .error ("Parent nodes must have a tag.") := rfl

theorem to_htmlF_parent_children_none (f : Nat) (t p) :
    to_htmlF (f + 1) (.parent (some t) none p) =
      .error ("Parent node missing child nodes.") := rfl

theorem to_htmlF_parent_some (f : Nat) (t : Str) (cs : List HTMLNode) (p) :
    to_htmlF (f + 1) (.parent (some t) (some cs) p) =
      (mapME (to_htmlF f) cs) >>= (fun parts =>
        .ok (['<'] ++ t ++ props_to_html p ++ ['>'] ++ parts.flatten
              ++ ['<', '/'] ++ t ++ ['>'])) := rfl

theorem to_htmlF_congr :
    ∀ (f g : Nat) (n : HTMLNode), nsize n ≤ f → nsize n ≤ g → to_htmlF f n = to_htmlF g n
  | 0, _, n, hf, _ => absurd hf (by have := nsize_pos n; omega)
  | _ + 1, 0, n, _, hg => absurd hg (by have := nsize_pos n; omega)
  | f + 1, g + 1, n, hf, hg => by
    cases n with
    | leaf v t p => rfl
    | parent t cs p =>
      cases t with
      | none => rfl
      | some t =>
        cases cs with
        | none => rfl
        | some cs =>
          rw [to_htmlF_parent_some, to_htmlF_parent_some]
          have heq : mapME (to_htmlF f) cs = mapME (to_htmlF g) cs :=
            mapME_congr (fun c hc => to_htmlF_congr f g c
              (by have := nsize_lt_of_mem hc (some t) p; omega)
              (by have := nsize_lt_of_mem hc (some t) p; omega))
          rw [heq]

theorem to_htmlF_ok_nsize :
    ∀ (f : Nat) (n : HTMLNode) (s : Str), to_htmlF f n = .ok s → to_html n = .ok s
  | 0, _, _, h => by simp [to_htmlF] at h
  | f + 1, n, s, h => by
    unfold to_html
    cases n with
    | leaf v t p =>
      rw [nsize_leaf]
      exact h
    | parent t cs p =>
      cases t with
      | none => rw [to_htmlF_parent_tag_none] at h; simp at h
      | some t =>
        cases cs with
        | none => rw [nsize_parent_none]; exact h
        | some cs =>
          rw [to_htmlF_parent_some] at h
          cases hm : mapME (to_htmlF f) cs with
          | error e => rw [hm] at h; simp at h
          | ok parts =>
            rw [hm] at h
            simp only [except_bind_ok] at h
            obtain ⟨S, hS⟩ :
                ∃ S, nsize (HTMLNode.parent (some t) (some cs) p) = S + 1 :=
              ⟨(cs.map nsize).sum, by rw [nsize_parent_some]; omega⟩
            rw [hS, to_htmlF_parent_some]
            have hm' : mapME (to_htmlF S) cs = .ok parts := by
              apply mapME_ok_transport (fun c hc b hb => ?_) hm
              have h2 : to_html c = .ok b := to_htmlF_ok_nsize f c b hb
              have hcS : nsize c ≤ S := by
                have := nsize_lt_of_mem hc (some t) p
                omega
              have h3 : to_htmlF S c = to_htmlF (nsize c) c :=
                to_htmlF_congr S (nsize c) c hcS (le_refl _)
              rw [h3]
              exact h2
            rw [hm']
            simpa using h

theorem bind_render_of_fuel (r : Except String HTMLNode) (f : Nat) (s : Str)
    (h : r >>= to_htmlF f = .ok s) : r >>= to_html = .ok s := by
  cases r with
  | error e => simp at h
  | ok n =>
    simp only [except_bind_ok] at h ⊢
    exact to_htmlF_ok_nsize f n s h

theorem to_html_leaf (v : Option Str) (t : Option Str) (p) :
    to_html (.leaf v t p) =
      (match v with
       | none => .error ("All leaf nodes must have a value.")
       | some v =>
         match t with
         | none => .ok v
         | some t =>
           .ok (['<'] ++ t ++ props_to_html p ++ ['>'] ++ v ++ ['<', '/'] ++ t ++ ['>'])) := by
  unfold to_html
  rw [nsize_leaf]
  rfl

theorem to_html_parent_tag_none (cs p) :
    to_html (.parent none cs p) = .error ("Parent nodes must have a tag.") := by
  unfold to_html
  cases cs with
  | none => rw [nsize_parent_none]; rfl
  | some cs =>
    obtain ⟨S, hS⟩ : ∃ S, nsize (HTMLNode.parent none (some cs) p) = S + 1 :=
      ⟨(cs.map nsize).sum, by rw [nsize_parent_some]; omega⟩
    rw [hS]
    rfl

theorem to_html_parent_children_none (t : Str) (p) :
    to_html (.parent (some t) none p) = .error ("Parent node missing child nodes.") := by
  unfold to_html
  rw [nsize_parent_none]
  rfl

theorem to_html_parent_some (t : Str) (cs : List HTMLNode) (p) :
    to_html (.parent (some t) (some cs) p) =
      (mapME to_html cs) >>= (fun parts =>
        .ok (['<'] ++ t ++ props_to_html p ++ ['>'] ++ parts.flatten
              ++ ['<', '/'] ++ t ++ ['>'])) := by
  unfold to_html
  obtain ⟨S, hS⟩ :
      ∃ S, nsize (HTMLNode.parent (some t) (some cs) p) = S + 1 :=
    ⟨(cs.map nsize).sum, by rw [nsize_parent_some]; omega⟩
  rw [hS, to_htmlF_parent_some]
  have heq : mapME (to_htmlF S) cs = mapME to_html cs := by
    apply mapME_congr
    intro c hc
    have hcS : nsize c ≤ S := by
      have := nsize_lt_of_mem hc (some t) p
      omega
    exact to_htmlF_congr S (nsize c) c hcS (le_refl _)
  rw [heq]
  rfl

/-! ### Error/success analysis of `split_nodes_delimiter` -/

theorem snd_error_iff (delimiter : Str) (text_type : TextType) :
    ∀ (old_nodes : List TextNode),
      (∃ e, split_nodes_delimiter old_nodes delimiter text_type = .error e) ↔
        ∃ n ∈ old_nodes, n.text_type = TextType.TEXT ∧ pyCount delimiter n.text % 2 = 1
  | [] => by simp [split_nodes_delimiter]
  | node :: rest => by
    have ih := snd_error_iff delimiter text_type rest
    simp only [split_nodes_delimiter]
    by_cases ht : node.text_type = TextType.TEXT
    · by_cases hc : pyCount delimiter node.text % 2 = 0
      · have hfirst : splitOneNode delimiter text_type node =
            .ok (mkChunks delimiter text_type node.text) := by
          simp [splitOneNode, ht, hc]
        rw [hfirst]
        simp only [except_bind_ok]
        cases hrest : split_nodes_delimiter rest delimiter text_type with
        | error e =>
          simp only [except_bind_error]
          obtain ⟨n, hn, h1, h2⟩ := ih.mp ⟨e, hrest⟩
          constructor
          · intro _
            exact ⟨n, List.mem_cons_of_mem node hn, h1, h2⟩
          · intro _
            exact ⟨e, rfl⟩
        | ok out =>
          simp only [except_bind_ok]
          constructor
          · intro ⟨e, he⟩
            simp at he
          · intro ⟨n, hn, h1, h2⟩
            rcases List.mem_cons.mp hn with rfl | hn'
            · omega
            · obtain ⟨e, he⟩ := ih.mpr ⟨n, hn', h1, h2⟩
              rw [he] at hrest
              simp at hrest
      · have hfirst : splitOneNode delimiter text_type node =
            .error ("Invalid Markdown: Unmatched " ++ String.mk delimiter ++ " delimiter.") := by
          simp [splitOneNode, ht, hc]
        rw [hfirst]
        simp only [except_bind_error]
        constructor
        · intro _
          exact ⟨node, List.mem_cons_self node rest, ht, by omega⟩
        · intro _
          exact ⟨_, rfl⟩
    · have hfirst : splitOneNode delimiter text_type node = .ok [node] := by
        simp [splitOneNode, ht]
      rw [hfirst]
      simp only [except_bind_ok]
      cases hrest : split_nodes_delimiter rest delimiter text_type with
      | error e =>
        simp only [except_bind_error]
        obtain ⟨n, hn, h1, h2⟩ := ih.mp ⟨e, hrest⟩
        constructor
        · intro _
          exact ⟨n, List.mem_cons_of_mem node hn, h1, h2⟩
        · intro _
          exact ⟨e, rfl⟩
      | ok out =>
        simp only [except_bind_ok]
        constructor
        · intro ⟨e, he⟩
          simp at he
        · intro ⟨n, hn, h1, h2⟩
          rcases List.mem_cons.mp hn with rfl | hn'
          · exact absurd h1 ht
          · obtain ⟨e, he⟩ := ih.mpr ⟨n, hn', h1, h2⟩
            rw [he] at hrest
            simp at hrest

theorem snd_ok_iff (delimiter : Str) (text_type : TextType) (old_nodes : List TextNode) :
    (∃ out, split_nodes_delimiter old_nodes delimiter text_type = .ok out) ↔
      ∀ n ∈ old_nodes, n.text_type = TextType.TEXT → pyCount delimiter n.text % 2 = 0 := by
  have hdi := snd_error_iff delimiter text_type old_nodes
  cases hs : split_nodes_delimiter old_nodes delimiter text_type with
  | error e =>
    constructor
    · intro ⟨out, hout⟩
      simp at hout
    · intro hall
      obtain ⟨n, hn, h1, h2⟩ := hdi.mp ⟨e, hs⟩
      have := hall n hn h1
      omega
  | ok out =>
    constructor
    · intro _ n hn h1
      by_contra hodd
      obtain ⟨e, he⟩ := hdi.mpr ⟨n, hn, h1, by omega⟩
      rw [he] at hs
      simp at hs
    · intro _
      exact ⟨out, rfl⟩

/-- C4: `split_nodes_delimiter` fails with the unmatched-delimiter error
exactly when some `TEXT` segment's text contains the delimiter an odd
number of times; when every `TEXT` segment contains it an even number of
times the whole call returns normally.  (Aborting with no partial result
is inherent in the `Except` shape of the function: an error outcome
carries no node list.) -/
theorem C4_unbalanced_delimiter_error_iff_odd (old_nodes : List TextNode)
    (delimiter : Str) (text_type : TextType)
    (_hdelim : delimiter ∈ [(("**")).data, (("_")).data, (("*")).data, (("`")).data]) :
    ((∃ e, split_nodes_delimiter old_nodes delimiter text_type = .error e) ↔
      ∃ n ∈ old_nodes, n.text_type = TextType.TEXT ∧ pyCount delimiter n.text % 2 = 1)
    ∧ ((∃ out, split_nodes_delimiter old_nodes delimiter text_type = .ok out) ↔
      ∀ n ∈ old_nodes, n.text_type = TextType.TEXT → pyCount delimiter n.text % 2 = 0) :=
  ⟨snd_error_iff delimiter text_type old_nodes, snd_ok_iff delimiter text_type old_nodes⟩

/-- Witness for C4 at a concrete input: one plain segment containing a
single `**` fails, and one containing two `**` succeeds. -/
theorem C4_unbalanced_delimiter_error_iff_odd_witness :
    (∃ e,
      split_nodes_delimiter [⟨(("a**b")).data, TextType.TEXT, none⟩] ((("**")).data)
        TextType.BOLD = .error e)
    ∧ (∃ out,
      split_nodes_delimiter [⟨(("**bold**x")).data, TextType.TEXT, none⟩] ((("**")).data)
        TextType.BOLD = .ok out) := by
  constructor
  · exact (C4_unbalanced_delimiter_error_iff_odd
        [⟨(("a**b")).data, TextType.TEXT, none⟩] ((("**")).data) TextType.BOLD
        (by simp)).1.mpr
      ⟨⟨(("a**b")).data, TextType.TEXT, none⟩, by simp, rfl, by decide⟩
  · exact (C4_unbalanced_delimiter_error_iff_odd
        [⟨(("**bold**x")).data, TextType.TEXT, none⟩] ((("**")).data) TextType.BOLD
        (by simp)).2.mpr
      (by
        intro n hn _
        simp at hn
        subst hn
        decide)

/-- C6: splitting the single plain segment `**bold**` on `**` yields a
leading empty plain segment, the bold segment, and a trailing empty
plain segment; empty chunks are preserved. -/
theorem C6_empty_chunks_preserved :
    split_nodes_delimiter [⟨(("**bold**")).data, TextType.TEXT, none⟩] ((("**")).data)
        TextType.BOLD =
      .ok [⟨[], TextType.TEXT, none⟩, ⟨(("bold")).data, TextType.BOLD, none⟩,
           ⟨[], TextType.TEXT, none⟩] := rfl

/-- C8: rendering fails on a leaf without a value and on a parent
without a tag or without a child list; a leaf without a tag emits its
raw value; a parent with a present-but-empty child list renders as an
empty element; otherwise a parent renders its open tag, its rendered
children in order, and its close tag. -/
theorem C8_render_cases :
    (∀ (t : Option Str) (p), to_html (.leaf none t p) =
        .error ("All leaf nodes must have a value."))
    ∧ (∀ (v : Str) (p), to_html (.leaf (some v) none p) = .ok v)
    ∧ (∀ (cs : Option (List HTMLNode)) (p), to_html (.parent none cs p) =
        .error ("Parent nodes must have a tag."))
    ∧ (∀ (t : Str) (p), to_html (.parent (some t) none p) =
        .error ("Parent node missing child nodes."))
    ∧ (∀ (t : Str) (p), to_html (.parent (some t) (some []) p) =
        .ok (['<'] ++ t ++ props_to_html p ++ ['>'] ++ ['<', '/'] ++ t ++ ['>']))
    ∧ (∀ (t : Str) (cs : List HTMLNode) (p), to_html (.parent (some t) (some cs) p) =
        (mapME to_html cs) >>= (fun parts =>
          .ok (['<'] ++ t ++ props_to_html p ++ ['>'] ++ parts.flatten
                ++ ['<', '/'] ++ t ++ ['>']))) := by
  refine ⟨?_, ?_, ?_, ?_, ?_, ?_⟩
  · intro t p
    rw [to_html_leaf]
  · intro v p
    rw [to_html_leaf]
  · intro cs p
    exact to_html_parent_tag_none cs p
  · intro t p
    exact to_html_parent_children_none t p
  · intro t p
    rw [to_html_parent_some]
    simp [mapME]
  · intro t cs p
    exact to_html_parent_some t cs p

/-! ### Reconstruction after delimiter splitting (C5) -/

theorem reconstructDelim_nil (delimiter : Str) :
    reconstructDelim delimiter [] = [] := rfl

theorem reconstructDelim_cons (delimiter : Str) (n : TextNode) (segs : List TextNode) :
    reconstructDelim delimiter (n :: segs) =
      (if n.text_type = TextType.TEXT then n.text else delimiter ++ n.text ++ delimiter)
        ++ reconstructDelim delimiter segs := by
  simp [reconstructDelim]

theorem reconstructDelim_chunks (delimiter : Str) (text_type : TextType)
    (htt : text_type ≠ TextType.TEXT) :
    ∀ (chunks : List Str) (k : Nat), chunks.length % 2 = 1 → k % 2 = 0 →
      reconstructDelim delimiter
        ((chunks.enumFrom k).map
          (fun p => if p.1 % 2 == 0 then (⟨p.2, TextType.TEXT, none⟩ : TextNode)
                    else ⟨p.2, text_type, none⟩))
        = joinWith delimiter chunks
  | [], _, h, _ => by simp at h
  | [c], k, _, hk => by
    simp [List.enumFrom, reconstructDelim, joinWith, hk]
  | c1 :: c2 :: rest, k, h, hk => by
    have hr : rest.length % 2 = 1 := by
      simp only [List.length_cons] at h
      omega
    obtain ⟨r, rs, rfl⟩ : ∃ r rs, rest = r :: rs := by
      cases rest with
      | nil => simp at hr
      | cons r rs => exact ⟨r, rs, rfl⟩
    have hk1 : (k + 1) % 2 = 1 := by omega
    have hk2 : (k + 2) % 2 = 0 := by omega
    have ih := reconstructDelim_chunks delimiter text_type htt (r :: rs) (k + 2) hr hk2
    have he : List.enumFrom k (c1 :: c2 :: r :: rs) =
        (k, c1) :: (k + 1, c2) :: List.enumFrom (k + 2) (r :: rs) := rfl
    rw [he]
    simp only [List.map_cons]
    rw [reconstructDelim_cons, reconstructDelim_cons, ih]
    simp [hk, hk1, htt, joinWith, List.append_assoc]

theorem mkChunks_reconstruct (delimiter : Str) (text_type : TextType)
    (hd : delimiter ≠ []) (htt : text_type ≠ TextType.TEXT) (text : Str)
    (heven : pyCount delimiter text % 2 = 0) :
    reconstructDelim delimiter (mkChunks delimiter text_type text) = text := by
  have hlen : (pySplit delimiter text).length % 2 = 1 := by
    rw [length_pySplit delimiter hd]
    omega
  have h := reconstructDelim_chunks delimiter text_type htt (pySplit delimiter text) 0 hlen
    (by omega)
  exact h.trans (joinWith_pySplit delimiter hd text)

theorem snd_eq_flatMap (delimiter : Str) (text_type : TextType) :
    ∀ (old_nodes : List TextNode),
      (∀ n ∈ old_nodes, n.text_type = TextType.TEXT → pyCount delimiter n.text % 2 = 0) →
      split_nodes_delimiter old_nodes delimiter text_type =
        .ok (old_nodes.flatMap (fun n =>
          if n.text_type = TextType.TEXT then mkChunks delimiter text_type n.text else [n]))
  | [], _ => by simp [split_nodes_delimiter]
  | node :: rest, heven => by
    have hrest := snd_eq_flatMap delimiter text_type rest
      (fun n hn => heven n (List.mem_cons_of_mem node hn))
    simp only [split_nodes_delimiter]
    by_cases ht : node.text_type = TextType.TEXT
    · have hfirst : splitOneNode delimiter text_type node =
          .ok (mkChunks delimiter text_type node.text) := by
        simp [splitOneNode, ht, heven node (List.mem_cons_self node rest) ht]
      rw [hfirst]
      simp only [except_bind_ok]
      rw [hrest]
      simp only [except_bind_ok, List.flatMap_cons, ht, if_pos]
    · have hfirst : splitOneNode delimiter text_type node = .ok [node] := by
        simp [splitOneNode, ht]
      rw [hfirst]
      simp only [except_bind_ok]
      rw [hrest]
      simp only [except_bind_ok, List.flatMap_cons]
      rw [if_neg ht]

/-- C5: under an even delimiter count in every plain segment,
`split_nodes_delimiter` succeeds, only plain segments are subdivided
(non-plain segments pass through unchanged), segment order is preserved
(the output is the in-order concatenation of the per-segment results),
and for every plain segment the concatenation of the produced contents,
with the delimiter reinserted around each styled segment, reconstructs
the original text exactly. -/
theorem C5_even_split_reconstructs (old_nodes : List TextNode) (delimiter : Str)
    (text_type : TextType) (hd : delimiter ≠ []) (htt : text_type ≠ TextType.TEXT)
    (heven : ∀ n ∈ old_nodes, n.text_type = TextType.TEXT →
      pyCount delimiter n.text % 2 = 0) :
    split_nodes_delimiter old_nodes delimiter text_type =
      .ok (old_nodes.flatMap (fun n =>
        if n.text_type = TextType.TEXT then mkChunks delimiter text_type n.text else [n]))
    ∧ ∀ n ∈ old_nodes, n.text_type = TextType.TEXT →
        reconstructDelim delimiter (mkChunks delimiter text_type n.text) = n.text :=
  ⟨snd_eq_flatMap delimiter text_type old_nodes heven,
   fun n hn hTEXT =>
    mkChunks_reconstruct delimiter text_type hd htt n.text (heven n hn hTEXT)⟩

/-- Witness for C5 at a concrete input: a plain `**bold**` segment
followed by a pass-through italic segment. -/
theorem C5_even_split_reconstructs_witness :
    split_nodes_delimiter
        [⟨(("**bold**")).data, TextType.TEXT, none⟩, ⟨(("it")).data, TextType.ITALIC, none⟩]
        ((("**")).data) TextType.BOLD =
      .ok ([⟨(("**bold**")).data, TextType.TEXT, none⟩,
            ⟨(("it")).data, TextType.ITALIC, none⟩].flatMap (fun n =>
        if n.text_type = TextType.TEXT then mkChunks ((("**")).data) TextType.BOLD n.text
        else [n]))
    ∧ reconstructDelim ((("**")).data)
        (mkChunks ((("**")).data) TextType.BOLD ((("**bold**")).data)) =
      (("**bold**")).data := by
  have h := C5_even_split_reconstructs
    [⟨(("**bold**")).data, TextType.TEXT, none⟩, ⟨(("it")).data, TextType.ITALIC, none⟩]
    ((("**")).data) TextType.BOLD (by decide) (by decide)
    (by intro n hn ht; fin_cases hn <;> decide)
  exact ⟨h.1, h.2 ⟨(("**bold**")).data, TextType.TEXT, none⟩ (by simp) rfl⟩

/-! ### Block classification (C7) -/

theorem headingMatch_non_hash {c : Char} (hc : (c == '#') = false) (t : Str) :
    headingMatch (c :: t) = none := by
  simp [headingMatch, List.takeWhile, hc]

theorem isPrefixOf_cons_false {a c : Char} (h : (a == c) = false) (s t : Str) :
    ((a :: s).isPrefixOf (c :: t)) = false := by
  simp [List.isPrefixOf]
  intro he
  rw [he] at h
  simp at h

theorem joinWith_cons_head (sep : Str) (x : Str) (l : List Str) :
    ∃ t, joinWith sep (x :: l) = x ++ t := by
  cases l with
  | nil => exact ⟨[], by simp [joinWith]⟩
  | cons y rest =>
    refine ⟨sep ++ joinWith sep (y :: rest), ?_⟩
    simp only [joinWith]
    simp [List.append_assoc]

/-- C7: the classifier returns `ORDERED_LIST` exactly when every line,
enumerated from 1, starts with its own index followed by a dot and a
space; the block with a numbering gap `1. a` / `3. b` falls through to
`PARAGRAPH`. -/
theorem C7_ordered_list_contiguous :
    (∀ (block : Str),
      block_to_block_type block = BlockType.ORDERED_LIST ↔
        ∀ p ∈ (pySplit ['\n'] block).enumFrom 1,
          ((natChars p.1 ++ ['.', ' ']).isPrefixOf p.2) = true)
    ∧ block_to_block_type ((("1. a\n3. b")).data) = BlockType.PARAGRAPH := by
  constructor
  · intro block
    constructor
    · intro h
      simp only [block_to_block_type] at h
      split_ifs at h with h1 h2 h3 h4 h5
      exact (List.all_eq_true.mp h5)
    · intro hall
      obtain ⟨l₀, ls, hlines⟩ : ∃ l₀ ls, pySplit ['\n'] block = l₀ :: ls := by
        rcases hs : pySplit ['\n'] block with _ | ⟨l₀, ls⟩
        · exact absurd hs (pySplit_ne_nil ['\n'] block)
        · exact ⟨l₀, ls, rfl⟩
      have hmem : ((1 : Nat), l₀) ∈ (pySplit ['\n'] block).enumFrom 1 := by
        rw [hlines]
        exact List.mem_cons_self _ _
      have hp := hall (1, l₀) hmem
      have hnat1 : natChars 1 ++ ['.', ' '] = ['1', '.', ' '] := by decide
      rw [hnat1] at hp
      obtain ⟨tl, htl⟩ : ∃ tl, ['1', '.', ' '] ++ tl = l₀ :=
        List.isPrefixOf_iff_prefix.mp hp
      have hl₀ : l₀ = '1' :: '.' :: ' ' :: tl := by rw [← htl]; rfl
      obtain ⟨bt, hbt⟩ : ∃ bt, block = '1' :: bt := by
        have hjoin := joinWith_pySplit ['\n'] (by simp) block
        rw [hlines] at hjoin
        obtain ⟨t, ht⟩ := joinWith_cons_head ['\n'] l₀ ls
        rw [ht, hl₀] at hjoin
        exact ⟨'.' :: ' ' :: tl ++ t, by rw [← hjoin]; rfl⟩
      have hhm : headingMatch block = none := by
        rw [hbt]
        exact headingMatch_non_hash (by decide) bt
      have hcode : ((("```")).data.isPrefixOf block) = false := by
        rw [hbt]
        exact isPrefixOf_cons_false (by decide) _ _
      have hquote : (['>'].isPrefixOf l₀) = false := by
        rw [hl₀]
        exact isPrefixOf_cons_false (by decide) _ _
      have hul : (['-', ' '].isPrefixOf l₀) = false := by
        rw [hl₀]
        exact isPrefixOf_cons_false (by decide) _ _
      simp only [block_to_block_type, hhm, Option.isSome_none, Bool.false_eq_true,
        if_false, hcode, hlines]
      rw [if_neg (by simp)]
      rw [if_neg (by simp [List.all_cons, hquote])]
      rw [if_neg (by simp [List.all_cons, hul])]
      rw [if_pos (List.all_eq_true.mpr (hlines ▸ hall))]
  · decide

/-- Witness for C7 at a concrete contiguous ordered list. -/
theorem C7_ordered_list_contiguous_witness :
    block_to_block_type ((("1. a\n2. b")).data) = BlockType.ORDERED_LIST :=
  (C7_ordered_list_contiguous.1 ((("1. a\n2. b")).data)).mpr (by decide)

/-! ### Title extraction (C2) -/

/-- C2: `extract_title` (modelled from the spec, which places it in the
parsing module) fails with the "no title" error exactly when no line of
the document starts with the two-character level-1 heading marker, and
otherwise returns the trimmed remainder of the first such line. -/
theorem C2_extract_title_scan (markdown : Str) :
    ((∀ l ∈ pySplit ['\n'] markdown, ¬((['#', ' ']).isPrefixOf l) = true) ↔
      extract_title markdown = .error ("markdown does not contain h1 title"))
    ∧ ∀ l, (pySplit ['\n'] markdown).find? (fun l => (['#', ' ']).isPrefixOf l) = some l →
        extract_title markdown = .ok (pyStrip (l.drop 2)) := by
  constructor
  · constructor
    · intro hnone
      unfold extract_title
      rw [List.find?_eq_none.mpr hnone]
    · intro herr
      unfold extract_title at herr
      cases hf : (pySplit ['\n'] markdown).find? (fun l => (['#', ' ']).isPrefixOf l) with
      | none => exact List.find?_eq_none.mp hf
      | some l => rw [hf] at herr; simp at herr
  · intro l hl
    unfold extract_title
    rw [hl]

/-- Witness for C2 at the documents used by the test suite. -/
theorem C2_extract_title_scan_witness :
    extract_title ((("# My Page Title\nSome other content")).data) =
      .ok ((("My Page Title")).data)
    ∧ extract_title ((("Some content without a title")).data) =
      .error ("markdown does not contain h1 title") := by
  constructor
  · have h := (C2_extract_title_scan ((("# My Page Title\nSome other content")).data)).2
      ((("# My Page Title")).data) (by decide)
    exact h.trans (by rfl)
  · exact (C2_extract_title_scan ((("Some content without a title")).data)).1.mp (by decide)

/-! ### End-to-end rendering (C1) -/

/-- C1: the document with a level-1 heading block and a bold-containing
paragraph block renders to exactly the expected HTML string (the empty
plain segments produced by the delimiter split render as empty untagged
text). -/
theorem C1_end_to_end_render :
    (markdown_to_html_node ((("# Title\n\nHello **world**")).data)) >>= to_html =
      .ok ((("<div><h1>Title</h1><p>Hello <b>world</b></p></div>")).data) := by
  apply bind_render_of_fuel _ 10
  rfl

/-! ### Code-block conversion (C3) -/

theorem render_code_inner (text : Str) :
    to_htmlF 2 (HTMLNode.parent (some ((("code")).data))
        (some [HTMLNode.leaf (some text) none none]) none) =
      .ok ('<' :: 'c' :: 'o' :: 'd' :: 'e' :: '>' ::
            (text ++ ['<', '/', 'c', 'o', 'd', 'e', '>'])) := by
  have e1 : to_htmlF 1 (HTMLNode.leaf (some text) none none) = .ok text := rfl
  show to_htmlF (1 + 1) _ = _
  rw [to_htmlF_parent_some]
  have hc : ((("code")).data) = ['c', 'o', 'd', 'e'] := rfl
  simp [mapME, e1, props_to_html, hc]

theorem render_code_leaf (text : Str) :
    to_htmlF 2 (HTMLNode.leaf (some text) (some ((("code")).data)) none) =
      .ok ('<' :: 'c' :: 'o' :: 'd' :: 'e' :: '>' ::
            (text ++ ['<', '/', 'c', 'o', 'd', 'e', '>'])) := by
  show to_htmlF (1 + 1) _ = _
  rw [to_htmlF_leaf]
  have hc : ((("code")).data) = ['c', 'o', 'd', 'e'] := rfl
  simp [props_to_html, hc]

theorem render_block_to_code (block : Str) :
    to_html (block_to_code block) =
      .ok ((("<pre><code>")).data
            ++ ((block.take (block.length - 3)).drop 3).dropWhile (fun c => c == '\n')
            ++ (("</code></pre>")).data) := by
  apply to_htmlF_ok_nsize 3
  show to_htmlF (2 + 1) _ = _
  unfold block_to_code
  rw [to_htmlF_parent_some]
  have e2 : to_htmlF 2 (HTMLNode.parent (some ((("code")).data))
      (some [text_node_to_html_node
        ⟨((block.take (block.length - 3)).drop 3).dropWhile (fun c => c == '\n'),
          TextType.TEXT, none⟩]) none) =
      .ok ('<' :: 'c' :: 'o' :: 'd' :: 'e' :: '>' ::
            (((block.take (block.length - 3)).drop 3).dropWhile (fun c => c == '\n')
              ++ ['<', '/', 'c', 'o', 'd', 'e', '>'])) :=
    render_code_inner _
  have hp : ((("pre")).data) = ['p', 'r', 'e'] := rfl
  have ho : ((("<pre><code>")).data) = ['<', 'p', 'r', 'e', '>', '<', 'c', 'o', 'd', 'e', '>'] := rfl
  have hcl : ((("</code></pre>")).data) =
      ['<', '/', 'c', 'o', 'd', 'e', '>', '<', '/', 'p', 'r', 'e', '>'] := rfl
  simp [mapME, e2, props_to_html, hp, ho, hcl]

theorem render_main_block_to_code (block : Str) :
    to_html (Main.block_to_code block) =
      .ok ((("<pre><code>")).data
            ++ ((block.take (block.length - 3)).drop 3).dropWhile (fun c => c == '\n')
            ++ (("</code></pre>")).data) := by
  apply to_htmlF_ok_nsize 3
  show to_htmlF (2 + 1) _ = _
  unfold Main.block_to_code
  rw [to_htmlF_parent_some]
  have e2 : to_htmlF 2 (HTMLNode.leaf
      (some (((block.take (block.length - 3)).drop 3).dropWhile (fun c => c == '\n')))
      (some ((("code")).data)) none) =
      .ok ('<' :: 'c' :: 'o' :: 'd' :: 'e' :: '>' ::
            (((block.take (block.length - 3)).drop 3).dropWhile (fun c => c == '\n')
              ++ ['<', '/', 'c', 'o', 'd', 'e', '>'])) :=
    render_code_leaf _
  have hp : ((("pre")).data) = ['p', 'r', 'e'] := rfl
  have ho : ((("<pre><code>")).data) = ['<', 'p', 'r', 'e', '>', '<', 'c', 'o', 'd', 'e', '>'] := rfl
  have hcl : ((("</code></pre>")).data) =
      ['<', '/', 'c', 'o', 'd', 'e', '>', '<', '/', 'p', 'r', 'e', '>'] := rfl
  simp [mapME, e2, props_to_html, hp, ho, hcl]

/-- Counterexample for C3: a fenced block whose enclosed content begins
with two newlines renders with none of them kept (the claimed rendering
would keep one). -/
theorem C3_counterexample_two_newlines :
    to_html (block_to_code ((("```\n\nX```")).data)) =
      .ok ((("<pre><code>X</code></pre>")).data)
    ∧ (("<pre><code>X</code></pre>")).data ≠ (("<pre><code>\nX</code></pre>")).data := by
  constructor
  · exact to_htmlF_ok_nsize 10 _ _ (by rfl)
  · decide

/-- C3 (amended): `block_to_code` removes the three-character fence from
both ends (`block[3:-3]`), strips every leading newline of the enclosed
text, and wraps the remaining text verbatim — no inline parsing — as a
code-tagged node inside a pre-tagged parent; the main.py duplicate
renders identically. -/
theorem C3_amended_code_block (block : Str) :
    to_html (block_to_code block) =
      .ok ((("<pre><code>")).data
            ++ ((block.take (block.length - 3)).drop 3).dropWhile (fun c => c == '\n')
            ++ (("</code></pre>")).data)
    ∧ to_html (Main.block_to_code block) =
      .ok ((("<pre><code>")).data
            ++ ((block.take (block.length - 3)).drop 3).dropWhile (fun c => c == '\n')
            ++ (("</code></pre>")).data) :=
  ⟨render_block_to_code block, render_main_block_to_code block⟩

/-! ### Structural well-formedness of constructed trees (C9) -/

theorem WF_to_htmlF_ok :
    ∀ (f : Nat) (n : HTMLNode), nsize n ≤ f → WF n → ∃ s, to_htmlF f n = .ok s
  | 0, n, hf, _ => absurd hf (by have := nsize_pos n; omega)
  | f + 1, n, hf, hwf => by
    cases hwf with
    | leaf v t p =>
      cases t with
      | none => exact ⟨v, rfl⟩
      | some t => exact ⟨_, rfl⟩
    | parent t cs p hcs =>
      rw [to_htmlF_parent_some]
      obtain ⟨parts, hparts⟩ : ∃ parts, mapME (to_htmlF f) cs = .ok parts := by
        apply mapME_ok_forall
        intro c hc
        refine WF_to_htmlF_ok f c ?_ (hcs c hc)
        have := nsize_lt_of_mem hc (some t) p
        omega
      rw [hparts]
      exact ⟨_, rfl⟩

theorem WF_to_html_ok (n : HTMLNode) (h : WF n) : ∃ s, to_html n = .ok s :=
  WF_to_htmlF_ok (nsize n) n (le_refl _) h

theorem WF_tn2h (tn : TextNode) : WF (text_node_to_html_node tn) := by
  unfold text_node_to_html_node
  cases tn.text_type <;> exact WF.leaf _ _ _

theorem WF_parent_of_textnodes (t : Str) (ns : List TextNode) (p) :
    WF (.parent (some t) (some (ns.map text_node_to_html_node)) p) := by
  refine WF.parent t _ p ?_
  intro c hc
  obtain ⟨tn, _, rfl⟩ := List.mem_map.mp hc
  exact WF_tn2h tn

theorem WF_of_bind_textnodes {x : Str} {t : Str} {b : HTMLNode}
    (h : (do
        let ns ← text_to_textnodes x
        Except.ok (HTMLNode.parent (some t) (some (ns.map text_node_to_html_node)) none))
      = Except.ok b) : WF b := by
  cases ht : text_to_textnodes x with
  | error e => rw [ht] at h; simp at h
  | ok ns =>
    rw [ht] at h
    simp only [except_bind_ok, Except.ok.injEq] at h
    subst h
    exact WF_parent_of_textnodes t ns none

theorem WF_block_to_code (block : Str) : WF (block_to_code block) := by
  unfold block_to_code
  refine WF.parent _ _ _ ?_
  intro c hc
  simp only [List.mem_singleton] at hc
  subst hc
  refine WF.parent _ _ _ ?_
  intro c' hc'
  simp only [List.mem_singleton] at hc'
  subst hc'
  exact WF_tn2h _

theorem WF_block_to_ul {block : Str} {n : HTMLNode}
    (h : block_to_ul block = .ok n) : WF n := by
  unfold block_to_ul at h
  dsimp only at h
  cases hm : mapME (fun item => do
      let ns ← text_to_textnodes item
      Except.ok (HTMLNode.parent (some ((("li")).data))
        (some (ns.map text_node_to_html_node)) none)) (ulScan (pySplit ['\n'] block)) with
  | error e => rw [hm] at h; simp at h
  | ok list_nodes =>
    rw [hm] at h
    simp only [except_bind_ok, Except.ok.injEq] at h
    subst h
    refine WF.parent _ _ _ ?_
    intro c hc
    obtain ⟨item, _, hitem⟩ := mapME_mem_of_ok hm c hc
    exact WF_of_bind_textnodes hitem

theorem WF_block_to_ol {block : Str} {n : HTMLNode}
    (h : block_to_ol block = .ok n) : WF n := by
  unfold block_to_ol at h
  dsimp only at h
  cases hm : mapME (fun item => do
      let ns ← text_to_textnodes item
      Except.ok (HTMLNode.parent (some ((("li")).data))
        (some (ns.map text_node_to_html_node)) none)) (olScan (pySplit ['\n'] block)) with
  | error e => rw [hm] at h; simp at h
  | ok list_nodes =>
    rw [hm] at h
    simp only [except_bind_ok, Except.ok.injEq] at h
    subst h
    refine WF.parent _ _ _ ?_
    intro c hc
    obtain ⟨item, _, hitem⟩ := mapME_mem_of_ok hm c hc
    exact WF_of_bind_textnodes hitem

theorem WF_block_to_heading {block : Str} {n : HTMLNode}
    (h : block_to_heading block = .ok n) : WF n := by
  unfold block_to_heading at h
  cases hm : headingMatch block with
  | none =>
    rw [hm] at h
    exact WF_of_bind_textnodes h
  | some p =>
    obtain ⟨level, text⟩ := p
    rw [hm] at h
    exact WF_of_bind_textnodes h

theorem WF_blockToNode {block : Str} {n : HTMLNode}
    (h : blockToNode block = .ok n) : WF n := by
  unfold blockToNode at h
  cases hbt : block_to_block_type block <;> rw [hbt] at h
  case PARAGRAPH => exact WF_of_bind_textnodes h
  case HEADING => exact WF_block_to_heading h
  case CODE =>
    simp only [Except.ok.injEq] at h
    subst h
    exact WF_block_to_code block
  case QUOTE => exact WF_of_bind_textnodes h
  case UNORDERED_LIST => exact WF_block_to_ul h
  case ORDERED_LIST => exact WF_block_to_ol h

/-- C9: whenever the blocks.py pipeline succeeds (inline delimiter
parsing raised nothing), the resulting tree renders without any
structural-invariant error: every constructed leaf carries a present
value and every constructed parent carries a tag and a present child
list, so `to_html` returns a string. -/
theorem C9_pipeline_renders (markdown : Str) (node : HTMLNode)
    (h : markdown_to_html_node markdown = .ok node) : ∃ s, to_html node = .ok s := by
  apply WF_to_html_ok
  unfold markdown_to_html_node at h
  cases hm : mapME blockToNode (markdown_to_blocks markdown) with
  | error e => rw [hm] at h; simp at h
  | ok children =>
    rw [hm] at h
    simp only [except_bind_ok, Except.ok.injEq] at h
    subst h
    refine WF.parent _ _ _ ?_
    intro c hc
    obtain ⟨b, _, hb⟩ := mapME_mem_of_ok hm c hc
    exact WF_blockToNode hb

/-- Witness for C9 at a concrete one-paragraph document. -/
theorem C9_pipeline_renders_witness :
    markdown_to_html_node ((("hello")).data) =
      .ok (HTMLNode.parent (some ((("div")).data))
        (some [HTMLNode.parent (some ((("p")).data))
          (some [HTMLNode.leaf (some ((("hello")).data)) none none]) none]) none)
    ∧ ∃ s, to_html (HTMLNode.parent (some ((("div")).data))
        (some [HTMLNode.parent (some ((("p")).data))
          (some [HTMLNode.leaf (some ((("hello")).data)) none none]) none]) none) =
        .ok s :=
  ⟨rfl, C9_pipeline_renders ((("hello")).data) _ rfl⟩

/-! ### The duplicate pipelines of blocks.py and main.py (C10) -/

theorem mapME_forall₂_to_html :
    ∀ {cs₁ cs₂ : List HTMLNode},
      List.Forall₂ (fun n₁ n₂ => to_html n₁ = to_html n₂) cs₁ cs₂ →
      mapME to_html cs₁ = mapME to_html cs₂ := by
  intro cs₁ cs₂ h
  induction h with
  | nil => rfl
  | cons hR _ ih =>
    simp only [mapME]
    rw [hR, ih]

theorem paragraph_eq_of_no_newline {block : Str} (h : '\n' ∉ block) :
    block_to_paragraph block = Main.block_to_paragraph block := by
  unfold block_to_paragraph Main.block_to_paragraph
  rw [pySplit_not_mem '\n' block h]
  simp [joinWith]

theorem blockToNode_rel (block : Str)
    (hp : block_to_block_type block = BlockType.PARAGRAPH → '\n' ∉ block) :
    ExceptRel (fun n₁ n₂ => to_html n₁ = to_html n₂)
      (blockToNode block) (Main.blockToNode block) := by
  unfold blockToNode Main.blockToNode
  cases hbt : block_to_block_type block with
  | HEADING =>
    exact ExceptRel_of_eq (R := fun n₁ n₂ => to_html n₁ = to_html n₂) (fun a => rfl) rfl
  | QUOTE =>
    exact ExceptRel_of_eq (R := fun n₁ n₂ => to_html n₁ = to_html n₂) (fun a => rfl) rfl
  | UNORDERED_LIST =>
    exact ExceptRel_of_eq (R := fun n₁ n₂ => to_html n₁ = to_html n₂) (fun a => rfl) rfl
  | ORDERED_LIST =>
    exact ExceptRel_of_eq (R := fun n₁ n₂ => to_html n₁ = to_html n₂) (fun a => rfl) rfl
  | CODE =>
    show ExceptRel (fun n₁ n₂ => to_html n₁ = to_html n₂)
      (.ok (block_to_code block)) (.ok (Main.block_to_code block))
    simp only [ExceptRel]
    rw [render_block_to_code, render_main_block_to_code]
  | PARAGRAPH =>
    exact ExceptRel_of_eq (R := fun n₁ n₂ => to_html n₁ = to_html n₂) (fun a => rfl)
      (paragraph_eq_of_no_newline (hp hbt))

/-- Counterexample for C10: on the single multi-line paragraph block
`a` newline `b`, the blocks.py pipeline joins the lines with a space
while the main.py pipeline keeps the newline, so the rendered HTML
strings differ. -/
theorem C10_counterexample_multiline_paragraph :
    (markdown_to_html_node ((("a\nb")).data)) >>= to_html ≠
      (Main.markdown_to_html_node ((("a\nb")).data)) >>= to_html := by
  have h1 : (markdown_to_html_node ((("a\nb")).data)) >>= to_html =
      .ok ((("<div><p>a b</p></div>")).data) := by
    apply bind_render_of_fuel _ 10
    rfl
  have h2 : (Main.markdown_to_html_node ((("a\nb")).data)) >>= to_html =
      .ok ((("<div><p>a\nb</p></div>")).data) := by
    apply bind_render_of_fuel _ 10
    rfl
  rw [h1, h2]
  intro he
  simp only [Except.ok.injEq] at he
  exact absurd he (by decide)

/-- C10 (amended): the two duplicate pipelines produce node trees with
identical rendered HTML on every document in which no paragraph-classified
block contains a newline (on such blocks the two `block_to_paragraph`
implementations coincide; the structurally different code-block trees
always render identically). -/
theorem C10_amended_pipelines_agree (markdown : Str)
    (hp : ∀ b ∈ markdown_to_blocks markdown,
      block_to_block_type b = BlockType.PARAGRAPH → '\n' ∉ b) :
    (markdown_to_html_node markdown) >>= to_html =
      (Main.markdown_to_html_node markdown) >>= to_html := by
  unfold markdown_to_html_node Main.markdown_to_html_node
  have hrel := mapME_rel (fun b hb => blockToNode_rel b (hp b hb))
  cases hm₁ : mapME blockToNode (markdown_to_blocks markdown) with
  | error e₁ =>
    cases hm₂ : mapME Main.blockToNode (markdown_to_blocks markdown) with
    | error e₂ =>
      rw [hm₁, hm₂] at hrel
      simp only [ExceptRel] at hrel
      subst hrel
      simp [hm₁, hm₂]
    | ok cs₂ =>
      rw [hm₁, hm₂] at hrel
      simp [ExceptRel] at hrel
  | ok cs₁ =>
    cases hm₂ : mapME Main.blockToNode (markdown_to_blocks markdown) with
    | error e₂ =>
      rw [hm₁, hm₂] at hrel
      simp [ExceptRel] at hrel
    | ok cs₂ =>
      rw [hm₁, hm₂] at hrel
      simp only [ExceptRel] at hrel
      simp only [hm₁, hm₂, except_bind_ok]
      rw [to_html_parent_some, to_html_parent_some]
      rw [mapME_forall₂_to_html hrel]

/-- Witness for the amended C10 at a concrete document whose paragraph
block has no newline. -/
theorem C10_amended_pipelines_agree_witness :
    (markdown_to_html_node ((("# Title\n\nHello")).data)) >>= to_html =
      (Main.markdown_to_html_node ((("# Title\n\nHello")).data)) >>= to_html :=
  C10_amended_pipelines_agree ((("# Title\n\nHello")).data) (by decide)

end SSG
